import Mathlib

/-!
Shallow embedding of the `basic-interpreter` pipeline (src/lexer.js,
src/parser.js with its Interpreter/NumberValue half, src/token_types.js,
src/basic.js `run`).

Modelling conventions:
* JavaScript numbers are modelled by `JSNum`: an exact rational for finite
  values together with the IEEE-754 special values `posInf`, `negInf`, `nan`.
  Rounding of binary64 arithmetic and the sign of zero are not modelled; no
  statement proved below depends on either.
* JavaScript exceptions are modelled by `Except`.  The recursive-descent
  parser is given explicit fuel (the JS recursion is bounded by the token
  count; `Parser.parse` supplies more than enough fuel, and fuel exhaustion
  surfaces as the distinguished `Failure.internal`, never as a source error).
* The lexer owns a single `Position` object (`this.position`) that
  `Lexer.advance` mutates in place, and every token stores a *reference* to
  that object (`new Token(tt, null, this.position)`).  Hence after
  `makeTokens` returns, dereferencing any token's `position` yields the final
  value of the shared cell.  `LexOutput.tokens` holds the tokens as observed
  after lexing (every `position` field equal to the final cell value), while
  `LexOutput.creationPositions` is the ghost trace of the value the shared
  cell had at each token's creation.
* The two error classes extend `Error` and call
  `super(message, fileName, lineNumber)`.  The standard ECMAScript `Error`
  constructor (as in Node, this program's host) takes only
  `(message, options)` and silently discards a string second argument and any
  third argument, and the subclasses set no own properties — so a thrown
  error carries only its message.  `JSError` models exactly that, and the
  `make` embeddings of the constructors receive the same three arguments the
  source passes and keep only the message; the subclass identity
  (`instanceof`) is kept as the `Failure` variant.
-/

namespace Basic

/-- A JavaScript number: exact rational for finite binary64 values plus the
IEEE-754 special values.  (Binary64 rounding and negative zero are not
modelled.) -/
inductive JSNum where
  | num (q : ℚ)
  | posInf
  | negInf
  | nan
deriving DecidableEq, Repr

/-- JavaScript `+` on numbers (IEEE-754 addition, exact on finite values). -/
def JSNum.add : JSNum → JSNum → JSNum
  | .num a, .num b => .num (a + b)
  | .nan, _ => .nan
  | _, .nan => .nan
  | .posInf, .negInf => .nan
  | .negInf, .posInf => .nan
  | .posInf, _ => .posInf
  | _, .posInf => .posInf
  | .negInf, _ => .negInf
  | _, .negInf => .negInf

/-- JavaScript `-` on numbers. -/
def JSNum.sub : JSNum → JSNum → JSNum
  | .num a, .num b => .num (a - b)
  | .nan, _ => .nan
  | _, .nan => .nan
  | .posInf, .posInf => .nan
  | .negInf, .negInf => .nan
  | .posInf, _ => .posInf
  | _, .posInf => .negInf
  | .negInf, _ => .negInf
  | _, .negInf => .posInf

/-- JavaScript `*` on numbers. -/
def JSNum.mul : JSNum → JSNum → JSNum
  | .num a, .num b => .num (a * b)
  | .nan, _ => .nan
  | _, .nan => .nan
  | .posInf, .posInf => .posInf
  | .posInf, .negInf => .negInf
  | .negInf, .posInf => .negInf
  | .negInf, .negInf => .posInf
  | .posInf, .num b => if 0 < b then .posInf else if b < 0 then .negInf else .nan
  | .num a, .posInf => if 0 < a then .posInf else if a < 0 then .negInf else .nan
  | .negInf, .num b => if 0 < b then .negInf else if b < 0 then .posInf else .nan
  | .num a, .negInf => if 0 < a then .negInf else if a < 0 then .posInf else .nan

/-- JavaScript `/` on numbers: unchecked IEEE-754 division, so a zero divisor
yields `±∞` for a nonzero dividend and `NaN` for `0/0`.  (The divisor `0`
here is the positive zero produced by numeric literals.) -/
def JSNum.div : JSNum → JSNum → JSNum
  | .num a, .num b =>
      if b = 0 then (if 0 < a then .posInf else if a < 0 then .negInf else .nan)
      else .num (a / b)
  | .nan, _ => .nan
  | _, .nan => .nan
  | .posInf, .posInf => .nan
  | .posInf, .negInf => .nan
  | .negInf, .posInf => .nan
  | .negInf, .negInf => .nan
  | .posInf, .num b => if b < 0 then .negInf else .posInf
  | .negInf, .num b => if b < 0 then .posInf else .negInf
  | .num _, .posInf => .num 0
  | .num _, .negInf => .num 0

/-- A position in the input storing the index, line number and column
(src/lexer.js `Position`). -/
structure Position where
  index : Nat
  lineNumber : Nat
  column : Nat
deriving DecidableEq, Repr

/-- `Position.advance(currentChar)`: increment index and column, and on a
newline increment the line number and reset the column. -/
def Position.advance (p : Position) (currentChar : Char) : Position :=
  let q : Position := ⟨p.index + 1, p.lineNumber, p.column + 1⟩
  if currentChar = '\n' then ⟨q.index, q.lineNumber + 1, 0⟩ else q

/-- The token types of src/token_types.js. -/
inductive TokenType where
  | TT_INT
  | TT_FLOAT
  | TT_ADD
  | TT_SUBTRACT
  | TT_MULTIPLY
  | TT_DIVIDE
  | TT_LPAREN
  | TT_RPAREN
  | TT_EOF
deriving DecidableEq, Repr

/-- A token with a type, a potential value and a position (src/lexer.js
`Token`).  The `position` field is the value obtained by dereferencing the
token's stored reference to the lexer's shared `Position` object. -/
structure Token where
  type : TokenType
  value : Option ℚ
  position : Position
deriving DecidableEq, Repr

/-- A thrown JavaScript error object as exposed to callers: the standard
`Error` base constructor stores only the message, discarding the
Firefox-legacy `fileName`/`lineNumber` arguments the subclasses pass to
`super`, and the subclasses set no own properties. -/
structure JSError where
  message : String
deriving DecidableEq, Repr

/-- `new IllegalCharError(char, fileName, lineNumber)` (src/lexer.js): the
constructor receives the offending character, the file name and the line
number, and formats the message `'<char>' is an illegal character`; only the
message survives on the thrown `Error`. -/
def IllegalCharError.make (char : Char) (_fileName : String) (_lineNumber : Nat) :
    JSError :=
  ⟨"'" ++ String.singleton char ++ "' is an illegal character"⟩

/-- `new InvalidSyntaxError(syntax, fileName, lineNumber)` (src/parser.js):
the constructor receives an expectation string (JS parameter `syntax`), the
file name and the line number, and formats the message
`'<expectation>' invalid syntax`; only the message survives on the thrown
`Error`. -/
def InvalidSyntaxError.make (expectation : String) (_fileName : String)
    (_lineNumber : Nat) : JSError :=
  ⟨"'" ++ expectation ++ "' invalid syntax"⟩

/-- `Lexer.digits` from src/lexer.js. -/
def digits : List Char := ['0', '1', '2', '3', '4', '5', '6', '7', '8', '9']

/-- `Lexer.digits.includes(c)`. -/
def isDigitChar (c : Char) : Bool := digits.contains c

/-- Value of a decimal digit character. -/
def digitVal (c : Char) : Nat := c.toNat - '0'.toNat

/-- The natural number denoted by a list of decimal digit characters. -/
def natFromDigits (s : List Char) : Nat :=
  s.foldl (fun a c => 10 * a + digitVal c) 0

/-- JavaScript `parseInt` on the scanned lexeme: reads the longest leading
run of decimal digits. -/
def parseIntStr (s : List Char) : ℚ :=
  (natFromDigits (s.takeWhile isDigitChar) : ℚ)

/-- JavaScript `parseFloat` on the scanned lexeme: integer part, then an
optional `.` followed by a fractional digit run (exact rational reading; the
binary64 rounding step is not modelled). -/
def parseFloatStr (s : List Char) : ℚ :=
  let ip := s.takeWhile isDigitChar
  match s.dropWhile isDigitChar with
  | '.' :: r =>
      let fp := r.takeWhile isDigitChar
      (natFromDigits ip : ℚ) + (natFromDigits fp : ℚ) / 10 ^ fp.length
  | _ => (natFromDigits ip : ℚ)

/-- The loop of `Lexer.makeNumber`: while the current character is a digit or
a `.`, append it and advance — except that a second `.` breaks out of the
loop without being consumed.  Returns the accumulated lexeme, the `hasDot`
flag, the unconsumed remainder and the position after the scan. -/
def makeNumberLoop : List Char → Position → List Char → Bool →
    List Char × Bool × List Char × Position
  | [], pos, acc, hasDot => (acc, hasDot, [], pos)
  | c :: rest, pos, acc, hasDot =>
      if isDigitChar c then
        makeNumberLoop rest (pos.advance c) (acc ++ [c]) hasDot
      else if c = '.' then
        if hasDot then (acc, hasDot, c :: rest, pos)
        else makeNumberLoop rest (pos.advance c) (acc ++ [c]) true
      else (acc, hasDot, c :: rest, pos)

/-- `Lexer.makeNumber`: scan a number and build a `TT_FLOAT` token (value
`parseFloat`) if a dot was consumed, else a `TT_INT` token (value
`parseInt`).  The token is created after the scan, so it is created while the
shared position cell holds the post-scan value.  Returns the token, the
unconsumed remainder and the post-scan position. -/
def makeNumber (cs : List Char) (pos : Position) : Token × List Char × Position :=
  let r := makeNumberLoop cs pos [] false
  let tok : Token :=
    if r.2.1 then ⟨.TT_FLOAT, some (parseFloatStr r.1), r.2.2.2⟩
    else ⟨.TT_INT, some (parseIntStr r.1), r.2.2.2⟩
  (tok, r.2.2.1, r.2.2.2)

/-- The loop of `Lexer.makeTokens`, with fuel (each iteration consumes at
least one character, so `input.length + 1` fuel always suffices).  `acc`
pairs each created token with the value the shared position cell held at its
creation.  Returns the accumulated pairs and the final cell value. -/
def makeTokensLoop (fileName : String) : Nat → List Char → Position →
    List (Token × Position) →
    Except JSError (Option (List (Token × Position) × Position))
  | 0, _, _, _ => .ok none
  | _ + 1, [], pos, acc => .ok (some (acc, pos))
  | fuel + 1, c :: rest, pos, acc =>
      if c = ' ' ∨ c = '\t' then
        makeTokensLoop fileName fuel rest (pos.advance c) acc
      else if isDigitChar c then
        let r := makeNumber (c :: rest) pos
        makeTokensLoop fileName fuel r.2.1 r.2.2 (acc ++ [(r.1, r.2.2)])
      else if c = '+' then
        makeTokensLoop fileName fuel rest (pos.advance c)
          (acc ++ [(⟨.TT_ADD, none, pos⟩, pos)])
      else if c = '-' then
        makeTokensLoop fileName fuel rest (pos.advance c)
          (acc ++ [(⟨.TT_SUBTRACT, none, pos⟩, pos)])
      else if c = '*' then
        makeTokensLoop fileName fuel rest (pos.advance c)
          (acc ++ [(⟨.TT_MULTIPLY, none, pos⟩, pos)])
      else if c = '/' then
        makeTokensLoop fileName fuel rest (pos.advance c)
          (acc ++ [(⟨.TT_DIVIDE, none, pos⟩, pos)])
      else if c = '(' then
        makeTokensLoop fileName fuel rest (pos.advance c)
          (acc ++ [(⟨.TT_LPAREN, none, pos⟩, pos)])
      else if c = ')' then
        makeTokensLoop fileName fuel rest (pos.advance c)
          (acc ++ [(⟨.TT_RPAREN, none, pos⟩, pos)])
      else .error (IllegalCharError.make c fileName pos.lineNumber)

/-- The observable result of `Lexer.makeTokens`: the tokens as seen once the
lexer has returned (every `position` field reads the final value of the
single shared `Position` object), the ghost trace of the cell's value at each
token's creation, and the final cell value itself. -/
structure LexOutput where
  tokens : List Token
  creationPositions : List Position
  finalPos : Position
deriving DecidableEq, Repr

/-- A failure of the pipeline: one of the two thrown error kinds, or the
`internal` marker for paths unreachable from the JS source (fuel exhaustion,
an empty token list, a binary node with a non-operator token). -/
inductive Failure where
  | lexError (e : JSError)
  | parseError (e : JSError)
  | internal
deriving DecidableEq, Repr

/-- `Lexer.makeTokens`: run the scanning loop from `new Position()` on, then
append the `TT_EOF` sentinel.  Because every token holds a reference to the
one shared `Position` object, the returned tokens all expose the final
position value.  (The loop consumes at least one character per step, so the
`length + 1` fuel never runs out and the `.internal` branch is dead.) -/
def makeTokens (fileName : String) (input : String) :
    Except Failure LexOutput :=
  match makeTokensLoop fileName (input.length + 1) input.data ⟨0, 0, 0⟩ [] with
  | .error e => .error (.lexError e)
  | .ok none => .error .internal
  | .ok (some (toks, finalPos)) =>
      let withEof := toks ++ [(⟨.TT_EOF, none, finalPos⟩, finalPos)]
      .ok ⟨withEof.map (fun tp => { tp.1 with position := finalPos }),
           withEof.map Prod.snd, finalPos⟩

/-- An AST node (src/parser.js `NumberNode`, `BinaryOperationNode`,
`UnaryOperationNode`). -/
inductive Node where
  | number (token : Token)
  | binaryOp (leftNode rightNode : Node) (operatorToken : Token)
  | unaryOp (operatorToken : Token) (node : Node)
deriving DecidableEq, Repr

/-- The parser's cursor: the JS fields `currentToken` plus the suffix of
`tokens` after it.  `Parser.advance` keeps `currentToken` unchanged once the
index runs past the end, which `adv` models by leaving the state unchanged on
an empty remainder. -/
structure PState where
  cur : Token
  rest : List Token
deriving DecidableEq, Repr

/-- `Parser.advance`. -/
def PState.adv : PState → PState
  | ⟨c, []⟩ => ⟨c, []⟩
  | ⟨_, t :: ts⟩ => ⟨t, ts⟩

mutual

/-- `Parser.factor`, with fuel: a `+`/`-` prefix wraps a recursive factor in
a `UnaryOperationNode`; an `Int`/`Float` token becomes a `NumberNode`; a
`(` parses a full expression and requires `)` on pain of the
`Expected ')'` error (reported at the `(` token's line); anything else raises
`Expected int or float` (at the current token's line). -/
def factor : Nat → String → PState → Except Failure (Node × PState)
  | 0, _, _ => .error .internal
  | fuel + 1, fileName, s =>
      let token := s.cur
      if token.type ∈ [TokenType.TT_ADD, TokenType.TT_SUBTRACT] then
        match factor fuel fileName s.adv with
        | .error e => .error e
        | .ok (f, s') => .ok (.unaryOp token f, s')
      else if token.type ∈ [TokenType.TT_INT, TokenType.TT_FLOAT] then
        .ok (.number token, s.adv)
      else if token.type = TokenType.TT_LPAREN then
        match expression fuel fileName s.adv with
        | .error e => .error e
        | .ok (e, s') =>
            if s'.cur.type = TokenType.TT_RPAREN then .ok (e, s'.adv)
            else .error (.parseError
              (InvalidSyntaxError.make "Expected ')'" fileName
                token.position.lineNumber))
      else .error (.parseError
        (InvalidSyntaxError.make "Expected int or float" fileName
          token.position.lineNumber))

/-- `Parser.term`: a left-associative chain of factors joined by `*`/`/`. -/
def term : Nat → String → PState → Except Failure (Node × PState)
  | 0, _, _ => .error .internal
  | fuel + 1, fileName, s =>
      binaryOperation fuel true [TokenType.TT_MULTIPLY, TokenType.TT_DIVIDE]
        fileName s

/-- `Parser.expression`: a left-associative chain of terms joined by
`+`/`-`. -/
def expression : Nat → String → PState → Except Failure (Node × PState)
  | 0, _, _ => .error .internal
  | fuel + 1, fileName, s =>
      binaryOperation fuel false [TokenType.TT_ADD, TokenType.TT_SUBTRACT]
        fileName s

/-- `Parser.binaryOperation(shouldFactor, operatorTypes)`: parse one lower
level node as the initial `left`, then run the operator loop. -/
def binaryOperation : Nat → Bool → List TokenType → String → PState →
    Except Failure (Node × PState)
  | 0, _, _, _, _ => .error .internal
  | fuel + 1, shouldFactor, operatorTypes, fileName, s =>
      match (if shouldFactor then factor fuel fileName s
             else term fuel fileName s) with
      | .error e => .error e
      | .ok (left, s') =>
          binOpLoop fuel shouldFactor operatorTypes fileName left s'

/-- The `while` loop of `Parser.binaryOperation`: while the current token's
type is in `operatorTypes`, consume the operator, parse another lower level
node, and fold it left-associatively into `left`. -/
def binOpLoop : Nat → Bool → List TokenType → String → Node → PState →
    Except Failure (Node × PState)
  | 0, _, _, _, _, _ => .error .internal
  | fuel + 1, shouldFactor, operatorTypes, fileName, left, s =>
      if s.cur.type ∈ operatorTypes then
        let operatorNode := s.cur
        match (if shouldFactor then factor fuel fileName s.adv
               else term fuel fileName s.adv) with
        | .error e => .error e
        | .ok (right, s') =>
            binOpLoop fuel shouldFactor operatorTypes fileName
              (.binaryOp left right operatorNode) s'
      else .ok (left, s)

end

/-- `Parser.parse`: parse one expression and require the `TT_EOF` sentinel,
else raise the trailing-garbage error.  The fuel `5 * length + 5` dominates
the JS call depth (at most five nested calls between token consumptions). -/
def parse (fileName : String) (tokens : List Token) : Except Failure Node :=
  match tokens with
  | [] => .error .internal
  | t :: ts =>
      match expression (5 * (t :: ts).length + 5) fileName ⟨t, ts⟩ with
      | .error e => .error e
      | .ok (node, s') =>
          if s'.cur.type = TokenType.TT_EOF then .ok node
          else .error (.parseError
            (InvalidSyntaxError.make "Expected '+', '-', '*', or '/'" fileName
              s'.cur.position.lineNumber))

/-- A numeric result value (src/parser.js `NumberValue`): a JS number plus a
position slot (`undefined` right after construction, set by
`setPosition`). -/
structure NumberValue where
  value : JSNum
  position : Option Position
deriving DecidableEq, Repr

/-- `new NumberValue(v)`. -/
def NumberValue.make (v : JSNum) : NumberValue := ⟨v, none⟩

/-- `NumberValue.setPosition`. -/
def NumberValue.setPosition (n : NumberValue) (p : Option Position) :
    NumberValue :=
  { n with position := p }

/-- `NumberValue.addedTo`. -/
def NumberValue.addedTo (a b : NumberValue) : NumberValue :=
  NumberValue.make (JSNum.add a.value b.value)

/-- `NumberValue.subractedBy` (the source's spelling). -/
def NumberValue.subractedBy (a b : NumberValue) : NumberValue :=
  NumberValue.make (JSNum.sub a.value b.value)

/-- `NumberValue.multipliedBy`. -/
def NumberValue.multipliedBy (a b : NumberValue) : NumberValue :=
  NumberValue.make (JSNum.mul a.value b.value)

/-- `NumberValue.dividedBy`. -/
def NumberValue.dividedBy (a b : NumberValue) : NumberValue :=
  NumberValue.make (JSNum.div a.value b.value)

/-- `Interpreter.visit` and its three `visit<NodeKind>` handlers.  A number
node wraps its token's value (number tokens always carry one; `getD 0` is
never exercised by the pipeline); a binary node combines the recursively
evaluated children with the method selected by the operator token's type (the
JS `switch` has no default, so a non-operator type would leave `result` null
and crash on `setPosition` — modelled as `none`); a unary node multiplies by
`-1` exactly when the operator is `TT_SUBTRACT`. -/
def visit : Node → Option NumberValue
  | .number t =>
      some ((NumberValue.make (JSNum.num (t.value.getD 0))).setPosition
        (some t.position))
  | .binaryOp l r op =>
      match visit l, visit r with
      | some left, some right =>
          let result : Option NumberValue :=
            match op.type with
            | .TT_ADD => some (left.addedTo right)
            | .TT_SUBTRACT => some (left.subractedBy right)
            | .TT_MULTIPLY => some (left.multipliedBy right)
            | .TT_DIVIDE => some (left.dividedBy right)
            | _ => none
          result.map (fun result => result.setPosition (some op.position))
      | _, _ => none
  | .unaryOp op n =>
      match visit n with
      | none => none
      | some number =>
          let number :=
            if op.type = TokenType.TT_SUBTRACT then
              number.multipliedBy (NumberValue.make (JSNum.num (-1)))
            else number
          some (number.setPosition (some op.position))

/-- `run(input, fileName)` from src/basic.js: lex, parse, interpret; the
first error aborts the pipeline. -/
def run (input : String) (fileName : String) : Except Failure NumberValue :=
  match makeTokens fileName input with
  | .error e => .error e
  | .ok lexOut =>
      match parse fileName lexOut.tokens with
      | .error e => .error e
      | .ok ast =>
          match visit ast with
          | some result => .ok result
          | none => .error .internal

/-- The numeric value produced by `run`, discarding the attached position. -/
def runValue (input : String) (fileName : String) : Except Failure JSNum :=
  (run input fileName).map NumberValue.value

/-- A dummy position for token-level statements (the parser's behaviour does
not depend on positions except for error line numbers). -/
def pos0 : Position := ⟨0, 0, 0⟩

/-- An integer-literal token for token-level statements. -/
def mkInt (q : ℚ) : Token := ⟨.TT_INT, some q, pos0⟩

/-- A valueless token of the given type for token-level statements. -/
def mkTok (t : TokenType) : Token := ⟨t, none, pos0⟩

/-- Parse a token list (token-level entry, fixed file name). -/
def parseTokens (ts : List Token) : Except Failure Node := parse "t" ts

/-- Parse a token list and evaluate the resulting tree to its numeric
value. -/
def evalTokens (ts : List Token) : Except Failure JSNum :=
  match parseTokens ts with
  | .error e => .error e
  | .ok n =>
      match visit n with
      | some v => .ok v.value
      | none => .error .internal

/-! General lemmas about the embedded pipeline. -/

/-- The operator token types a binary node can receive from the parser. -/
def opOK (t : TokenType) : Prop :=
  t = .TT_ADD ∨ t = .TT_SUBTRACT ∨ t = .TT_MULTIPLY ∨ t = .TT_DIVIDE

/-- Well-formedness invariant established by the parser: every binary node's
operator token has one of the four operator types. -/
inductive WF : Node → Prop where
  | number : ∀ t, WF (.number t)
  | binaryOp : ∀ l r op, WF l → WF r → opOK op.type → WF (.binaryOp l r op)
  | unaryOp : ∀ op n, WF n → WF (.unaryOp op n)

/-- Evaluation is total on well-formed trees: the `none` branch of `visit`
(the JS crash on a non-operator binary token) is unreachable. -/
theorem visit_isSome_of_WF : ∀ n : Node, WF n → (visit n).isSome := by
  intro n h
  induction h with
  | number t => simp [visit]
  | binaryOp l r op _ _ hop ihl ihr =>
      obtain ⟨vl, hvl⟩ := Option.isSome_iff_exists.mp ihl
      obtain ⟨vr, hvr⟩ := Option.isSome_iff_exists.mp ihr
      rcases hop with h | h | h | h <;> simp [visit, hvl, hvr, h]
  | unaryOp op m _ ihm =>
      obtain ⟨vm, hvm⟩ := Option.isSome_iff_exists.mp ihm
      simp [visit, hvm]

/-- Every node a successful parser call returns is well formed: `factor`
builds only number and unary nodes, and the `binaryOperation` loop only
attaches operator tokens drawn from its `operatorTypes` list. -/
theorem parser_wf : ∀ fuel : Nat,
    (∀ fn s n s', factor fuel fn s = .ok (n, s') → WF n) ∧
    (∀ fn s n s', term fuel fn s = .ok (n, s') → WF n) ∧
    (∀ fn s n s', expression fuel fn s = .ok (n, s') → WF n) ∧
    (∀ sf ops fn s n s', (∀ t ∈ ops, opOK t) →
      binaryOperation fuel sf ops fn s = .ok (n, s') → WF n) ∧
    (∀ sf ops fn left s n s', (∀ t ∈ ops, opOK t) → WF left →
      binOpLoop fuel sf ops fn left s = .ok (n, s') → WF n) := by
  intro fuel
  induction fuel with
  | zero =>
      refine ⟨?_, ?_, ?_, ?_, ?_⟩ <;> intros <;>
        simp_all [factor, term, expression, binaryOperation, binOpLoop]
  | succ fuel ih =>
      obtain ⟨ihF, ihT, ihE, ihB, ihL⟩ := ih
      refine ⟨?_, ?_, ?_, ?_, ?_⟩
      · intro fn s n s' h
        simp only [factor] at h
        split at h
        · cases heq : factor fuel fn s.adv with
          | error e => rw [heq] at h; exact absurd h (by simp)
          | ok p =>
              obtain ⟨f, s2⟩ := p
              rw [heq] at h
              simp only [Except.ok.injEq, Prod.mk.injEq] at h
              obtain ⟨rfl, rfl⟩ := h
              exact WF.unaryOp _ _ (ihF _ _ _ _ heq)
        · split at h
          · simp only [Except.ok.injEq, Prod.mk.injEq] at h
            obtain ⟨rfl, rfl⟩ := h
            exact WF.number _
          · split at h
            · cases heq : expression fuel fn s.adv with
              | error e => rw [heq] at h; exact absurd h (by simp)
              | ok p =>
                  obtain ⟨e, s2⟩ := p
                  rw [heq] at h
                  simp only at h
                  split at h
                  · simp only [Except.ok.injEq, Prod.mk.injEq] at h
                    obtain ⟨rfl, rfl⟩ := h
                    exact ihE _ _ _ _ heq
                  · exact absurd h (by simp)
            · exact absurd h (by simp)
      · intro fn s n s' h
        simp only [term] at h
        refine ihB _ _ _ _ _ _ ?_ h
        intro t ht
        simp only [List.mem_cons, List.not_mem_nil, or_false] at ht
        rcases ht with rfl | rfl
        · exact Or.inr (Or.inr (Or.inl rfl))
        · exact Or.inr (Or.inr (Or.inr rfl))
      · intro fn s n s' h
        simp only [expression] at h
        refine ihB _ _ _ _ _ _ ?_ h
        intro t ht
        simp only [List.mem_cons, List.not_mem_nil, or_false] at ht
        rcases ht with rfl | rfl
        · exact Or.inl rfl
        · exact Or.inr (Or.inl rfl)
      · intro sf ops fn s n s' hops h
        simp only [binaryOperation] at h
        cases heq : (if sf then factor fuel fn s else term fuel fn s) with
        | error e => rw [heq] at h; exact absurd h (by simp)
        | ok p =>
            obtain ⟨left, s2⟩ := p
            rw [heq] at h
            simp only at h
            have hleft : WF left := by
              by_cases hsf : sf
              · simp only [hsf, if_true] at heq
                exact ihF _ _ _ _ heq
              · simp only [hsf, if_false] at heq
                exact ihT _ _ _ _ heq
            exact ihL _ _ _ _ _ _ _ hops hleft h
      · intro sf ops fn left s n s' hops hleft h
        simp only [binOpLoop] at h
        split at h
        · rename_i hmem
          cases heq : (if sf then factor fuel fn s.adv else term fuel fn s.adv) with
          | error e => rw [heq] at h; exact absurd h (by simp)
          | ok p =>
              obtain ⟨right, s2⟩ := p
              rw [heq] at h
              simp only at h
              have hright : WF right := by
                by_cases hsf : sf
                · simp only [hsf, if_true] at heq
                  exact ihF _ _ _ _ heq
                · simp only [hsf, if_false] at heq
                  exact ihT _ _ _ _ heq
              exact ihL _ _ _ _ _ _ _ hops
                (WF.binaryOp _ _ _ hleft hright (hops _ hmem)) h
        · simp only [Except.ok.injEq, Prod.mk.injEq] at h
          obtain ⟨rfl, rfl⟩ := h
          exact hleft

/-- A successful `parse` yields a well-formed tree. -/
theorem parse_wf (fn : String) (ts : List Token) (n : Node)
    (h : parse fn ts = .ok n) : WF n := by
  unfold parse at h
  match ts, h with
  | t :: ts, h =>
      simp only at h
      split at h
      · exact absurd h (by simp)
      · rename_i node s' heq
        split at h
        · obtain rfl : node = n := by simpa using h
          exact (parser_wf _).2.2.1 _ _ _ _ heq
        · exact absurd h (by simp)

/-- If lexing and parsing both succeed, evaluation cannot fail: `run`
returns a value. -/
theorem run_ok_of_lex_parse (input name : String) (out : LexOutput)
    (node : Node) (hlex : makeTokens name input = .ok out)
    (hparse : parse name out.tokens = .ok node) :
    ∃ v, run input name = .ok v := by
  obtain ⟨v, hv⟩ := Option.isSome_iff_exists.mp
    (visit_isSome_of_WF _ (parse_wf _ _ _ hparse))
  refine ⟨v, ?_⟩
  unfold run
  rw [hlex]
  dsimp only
  rw [hparse]
  dsimp only
  rw [hv]

/-- A chain of `k` unary-minus nodes around a base node, as `factor` builds
for a run of leading `-` signs. -/
def negChain : Nat → Node → Node
  | 0, m => m
  | j + 1, m => .unaryOp (mkTok .TT_SUBTRACT) (negChain j m)

/-- `factor` on a token stream of `j + 1` minus signs followed by an integer
literal builds the corresponding chain of unary nodes (arbitrarily repeated
unary signs are accepted). -/
theorem factor_subChain (fn : String) (n : ℚ) : ∀ (j fuel : Nat),
    j + 2 ≤ fuel →
    factor fuel fn ⟨mkTok .TT_SUBTRACT,
        List.replicate j (mkTok .TT_SUBTRACT) ++ [mkInt n, mkTok .TT_EOF]⟩ =
      .ok (negChain (j + 1) (.number (mkInt n)), ⟨mkTok .TT_EOF, []⟩) := by
  intro j
  induction j with
  | zero =>
      intro fuel h
      obtain ⟨g, rfl⟩ : ∃ g, fuel = g + 2 := ⟨fuel - 2, by omega⟩
      rfl
  | succ j ih =>
      intro fuel h
      obtain ⟨f, rfl⟩ : ∃ f, fuel = f + 1 := ⟨fuel - 1, by omega⟩
      rw [List.replicate_succ, List.cons_append]
      have hstep : factor (f + 1) fn ⟨mkTok .TT_SUBTRACT,
          mkTok .TT_SUBTRACT ::
            (List.replicate j (mkTok .TT_SUBTRACT) ++ [mkInt n, mkTok .TT_EOF])⟩ =
          match factor f fn ⟨mkTok .TT_SUBTRACT,
              List.replicate j (mkTok .TT_SUBTRACT) ++ [mkInt n, mkTok .TT_EOF]⟩ with
          | .error e => .error e
          | .ok (f', s') => .ok (.unaryOp (mkTok .TT_SUBTRACT) f', s') := rfl
      rw [hstep, ih f (by omega)]
      rfl

/-- `expression` on the same minus-sign chain (given enough fuel). -/
theorem expression_subChain (fn : String) (n : ℚ) (k fuel : Nat)
    (h : k + 6 ≤ fuel) :
    expression fuel fn ⟨mkTok .TT_SUBTRACT,
        List.replicate k (mkTok .TT_SUBTRACT) ++ [mkInt n, mkTok .TT_EOF]⟩ =
      .ok (negChain (k + 1) (.number (mkInt n)), ⟨mkTok .TT_EOF, []⟩) := by
  obtain ⟨m, rfl⟩ : ∃ m, fuel = m + 5 := ⟨fuel - 5, by omega⟩
  have hexp : expression (m + 5) fn ⟨mkTok .TT_SUBTRACT,
      List.replicate k (mkTok .TT_SUBTRACT) ++ [mkInt n, mkTok .TT_EOF]⟩ =
      match (match factor (m + 1) fn ⟨mkTok .TT_SUBTRACT,
          List.replicate k (mkTok .TT_SUBTRACT) ++ [mkInt n, mkTok .TT_EOF]⟩ with
        | Except.error e => Except.error e
        | Except.ok (left, s') =>
            binOpLoop (m + 1) true [TokenType.TT_MULTIPLY, TokenType.TT_DIVIDE]
              fn left s') with
      | Except.error e => Except.error e
      | Except.ok (left', s'') =>
          binOpLoop (m + 3) false [TokenType.TT_ADD, TokenType.TT_SUBTRACT]
            fn left' s'' := rfl
  rw [hexp, factor_subChain fn n k (m + 1) (by omega)]
  rfl

/-- `parse` on `k + 1` leading minus signs and an integer literal. -/
theorem parse_subChain (fn : String) (n : ℚ) (k : Nat) :
    parse fn (mkTok .TT_SUBTRACT ::
        (List.replicate k (mkTok .TT_SUBTRACT) ++ [mkInt n, mkTok .TT_EOF])) =
      .ok (negChain (k + 1) (.number (mkInt n))) := by
  unfold parse
  dsimp only
  rw [expression_subChain fn n k _
    (by simp only [List.length_cons, List.length_append, List.length_replicate]; omega)]
  rfl

/-- Evaluating a chain of `k` unary-minus nodes around an integer literal
multiplies by `-1` for each sign. -/
theorem visit_negChain (n : ℚ) : ∀ k : Nat,
    visit (negChain k (.number (mkInt n))) =
      some ⟨.num (n * (-1) ^ k), some pos0⟩ := by
  intro k
  induction k with
  | zero =>
      simp [negChain, visit, NumberValue.make, NumberValue.setPosition, mkInt]
  | succ k ih =>
      have hdef : visit (negChain (k + 1) (.number (mkInt n))) =
          match visit (negChain k (.number (mkInt n))) with
          | none => none
          | some number =>
              some ((number.multipliedBy (NumberValue.make (JSNum.num (-1)))).setPosition
                (some pos0)) := rfl
      rw [hdef, ih]
      simp only [NumberValue.multipliedBy, NumberValue.make, NumberValue.setPosition,
        JSNum.mul, Option.some.injEq, NumberValue.mk.injEq, JSNum.num.injEq]
      refine ⟨?_, trivial⟩
      rw [pow_succ]
      ring

/-- Every `TT_INT` token the scanning loop emits carries a natural-number
value (the `parseInt` reading of its digit lexeme). -/
theorem makeTokensLoop_int_values : ∀ (fuel : Nat) (cs : List Char)
    (pos : Position) (acc : List (Token × Position)) (fn : String)
    (toks : List (Token × Position)) (p : Position),
    (∀ tp ∈ acc, tp.1.type = TokenType.TT_INT → ∃ m : ℕ, tp.1.value = some (m : ℚ)) →
    makeTokensLoop fn fuel cs pos acc = .ok (some (toks, p)) →
    ∀ tp ∈ toks, tp.1.type = TokenType.TT_INT → ∃ m : ℕ, tp.1.value = some (m : ℚ) := by
  intro fuel
  induction fuel with
  | zero =>
      intro cs pos acc fn toks p hacc h
      simp [makeTokensLoop] at h
  | succ fuel ih =>
      intro cs pos acc fn toks p hacc h
      have hext : ∀ T : TokenType, T ≠ TokenType.TT_INT →
          ∀ tp ∈ acc ++ [((⟨T, none, pos⟩ : Token), pos)],
            tp.1.type = TokenType.TT_INT → ∃ m : ℕ, tp.1.value = some (m : ℚ) := by
        intro T hT tp htp ht
        rcases List.mem_append.mp htp with hm | hm
        · exact hacc _ hm ht
        · simp only [List.mem_singleton] at hm
          subst hm
          exact absurd ht hT
      match cs with
      | [] =>
          simp only [makeTokensLoop, Except.ok.injEq, Option.some.injEq,
            Prod.mk.injEq] at h
          obtain ⟨rfl, rfl⟩ := h
          exact hacc
      | c :: rest =>
          simp only [makeTokensLoop] at h
          split at h
          · exact ih _ _ _ _ _ _ hacc h
          · split at h
            · refine ih _ _ _ _ _ _ ?_ h
              intro tp htp ht
              rcases List.mem_append.mp htp with hm | hm
              · exact hacc _ hm ht
              · simp only [List.mem_singleton] at hm
                subst hm
                simp only [makeNumber] at ht ⊢
                split at ht
                · exact absurd ht (by simp)
                · refine ⟨natFromDigits (((makeNumberLoop (c :: rest) pos [] false).1).takeWhile isDigitChar), ?_⟩
                  split
                  · simp_all
                  · simp [parseIntStr]
            · split at h
              · exact ih _ _ _ _ _ _ (hext _ (by decide)) h
              · split at h
                · exact ih _ _ _ _ _ _ (hext _ (by decide)) h
                · split at h
                  · exact ih _ _ _ _ _ _ (hext _ (by decide)) h
                  · split at h
                    · exact ih _ _ _ _ _ _ (hext _ (by decide)) h
                    · split at h
                      · exact ih _ _ _ _ _ _ (hext _ (by decide)) h
                      · split at h
                        · exact ih _ _ _ _ _ _ (hext _ (by decide)) h
                        · simp at h

/-- Every `TT_INT` token `makeTokens` returns carries a natural-number
value. -/
theorem makeTokens_int_values (fn input : String) (out : LexOutput)
    (h : makeTokens fn input = .ok out) :
    ∀ t ∈ out.tokens, t.type = TokenType.TT_INT → ∃ m : ℕ, t.value = some (m : ℚ) := by
  unfold makeTokens at h
  cases hloop : makeTokensLoop fn (input.length + 1) input.data ⟨0, 0, 0⟩ [] with
  | error e => rw [hloop] at h; exact absurd h (by simp)
  | ok o =>
      rw [hloop] at h
      match o, h with
      | some (toks, finalPos), h =>
          simp only [Except.ok.injEq] at h
          subst h
          have hvals := makeTokensLoop_int_values _ _ _ _ _ _ _ (by simp) hloop
          intro t ht hty
          simp only [List.mem_map] at ht
          obtain ⟨tp, htp, rfl⟩ := ht
          rcases List.mem_append.mp htp with hm | hm
          · obtain ⟨m, hv⟩ := hvals tp hm hty
            exact ⟨m, hv⟩
          · simp only [List.mem_singleton] at hm
            subst hm
            simp at hty

/-- The number-scanning loop consumes a prefix of its input containing at
most one `.` (none if one was already seen), reports `hasDot` exactly when
the consumed prefix (or the earlier input) contained a dot, and leaves the
rest — in particular a second `.` — unconsumed. -/
theorem makeNumberLoop_spec : ∀ (cs : List Char) (pos : Position)
    (acc : List Char) (hasDot : Bool),
    ∃ consumed : List Char,
      (makeNumberLoop cs pos acc hasDot).1 = acc ++ consumed ∧
      consumed ++ (makeNumberLoop cs pos acc hasDot).2.2.1 = cs ∧
      consumed.count '.' ≤ (if hasDot then 0 else 1) ∧
      (makeNumberLoop cs pos acc hasDot).2.1 = (hasDot || consumed.contains '.') := by
  intro cs
  induction cs with
  | nil =>
      intro pos acc hasDot
      exact ⟨[], by simp [makeNumberLoop]⟩
  | cons c rest ih =>
      intro pos acc hasDot
      simp only [makeNumberLoop]
      split
      · rename_i hdig
        obtain ⟨consumed, h1, h2, h3, h4⟩ := ih (pos.advance c) (acc ++ [c]) hasDot
        have hc : c ≠ '.' := by
          intro hc
          subst hc
          simp [isDigitChar, digits] at hdig
        refine ⟨c :: consumed, ?_, ?_, ?_, ?_⟩
        · rw [h1]; simp
        · rw [List.cons_append, h2]
        · simpa [List.count_cons, hc] using h3
        · rw [h4]
          simp [Ne.symm hc]
      · split
        · rename_i hdot
          subst hdot
          split
          · rename_i hD
            subst hD
            exact ⟨[], by simp, by simp, by simp, by simp⟩
          · rename_i hD
            obtain ⟨consumed, h1, h2, h3, h4⟩ := ih (pos.advance '.') (acc ++ ['.']) true
            simp only [if_true] at h3
            refine ⟨'.' :: consumed, ?_, ?_, ?_, ?_⟩
            · rw [h1]; simp
            · rw [List.cons_append, h2]
            · have hD' : hasDot = false := by
                cases hasDot
                · rfl
                · exact absurd rfl hD
              subst hD'
              simp [List.count_cons]
              omega
            · have hD' : hasDot = false := by
                cases hasDot
                · rfl
                · exact absurd rfl hD
              subst hD'
              rw [h4]
              simp
        · exact ⟨[], by simp, by simp, by simp, by simp⟩

/-- The scanning loop on an all-blank input emits no tokens and folds the
position over every blank character. -/
theorem makeTokensLoop_ws : ∀ (cs : List Char) (fuel : Nat) (fn : String)
    (pos : Position) (acc : List (Token × Position)),
    cs.length < fuel → (∀ c ∈ cs, c = ' ' ∨ c = '\t') →
    makeTokensLoop fn fuel cs pos acc =
      .ok (some (acc, cs.foldl Position.advance pos)) := by
  intro cs
  induction cs with
  | nil =>
      intro fuel fn pos acc hf _
      obtain ⟨f, rfl⟩ : ∃ f, fuel = f + 1 := ⟨fuel - 1, by omega⟩
      rfl
  | cons c rest ih =>
      intro fuel fn pos acc hf hws
      obtain ⟨f, rfl⟩ : ∃ f, fuel = f + 1 := ⟨fuel - 1, by omega⟩
      have hstep : makeTokensLoop fn (f + 1) (c :: rest) pos acc =
          makeTokensLoop fn f rest (pos.advance c) acc := by
        simp only [makeTokensLoop]
        rw [if_pos (hws c (by simp))]
      rw [hstep, List.foldl_cons]
      exact ih f fn (pos.advance c) acc (by simpa using hf)
        (fun x hx => hws x (by simp [hx]))

/-- Advancing over blanks never changes the line number. -/
theorem foldl_advance_ws_line : ∀ (cs : List Char) (pos : Position),
    (∀ c ∈ cs, c = ' ' ∨ c = '\t') →
    (cs.foldl Position.advance pos).lineNumber = pos.lineNumber := by
  intro cs
  induction cs with
  | nil => intro pos _; rfl
  | cons c rest ih =>
      intro pos hws
      rw [List.foldl_cons, ih _ (fun x hx => hws x (by simp [hx]))]
      rcases hws c (by simp) with rfl | rfl <;> rfl

/-- A token holding an integer-valued literal (as the lexer's `TT_INT`
tokens do, by `makeTokens_int_values`). -/
def intToken (t : Token) : Prop :=
  t.type = TokenType.TT_INT ∧ ∃ z : ℤ, t.value = some (z : ℚ)

/-- Trees built only from integer literals combined by `+`, `-`, `*` and
unary signs (no division). -/
inductive IntComposed : Node → Prop where
  | number : ∀ t, intToken t → IntComposed (.number t)
  | binaryOp : ∀ l r op, IntComposed l → IntComposed r →
      (op.type = TokenType.TT_ADD ∨ op.type = TokenType.TT_SUBTRACT ∨
        op.type = TokenType.TT_MULTIPLY) →
      IntComposed (.binaryOp l r op)
  | unaryOp : ∀ op n, IntComposed n → IntComposed (.unaryOp op n)

/-- Division-free integer-literal trees evaluate to integer values. -/
theorem visit_int : ∀ n : Node, IntComposed n →
    ∃ (z : ℤ) (p : Option Position), visit n = some ⟨.num (z : ℚ), p⟩ := by
  intro n h
  induction h with
  | number t ht =>
      obtain ⟨hty, z, hv⟩ := ht
      refine ⟨z, some t.position, ?_⟩
      simp [visit, hv, NumberValue.make, NumberValue.setPosition]
  | binaryOp l r op _ _ hop ihl ihr =>
      obtain ⟨zl, pl, hl⟩ := ihl
      obtain ⟨zr, pr, hr⟩ := ihr
      rcases hop with h1 | h1 | h1
      · refine ⟨zl + zr, some op.position, ?_⟩
        simp [visit, hl, hr, h1, NumberValue.addedTo, NumberValue.make,
          NumberValue.setPosition, JSNum.add]
      · refine ⟨zl - zr, some op.position, ?_⟩
        simp [visit, hl, hr, h1, NumberValue.subractedBy, NumberValue.make,
          NumberValue.setPosition, JSNum.sub]
      · refine ⟨zl * zr, some op.position, ?_⟩
        simp [visit, hl, hr, h1, NumberValue.multipliedBy, NumberValue.make,
          NumberValue.setPosition, JSNum.mul]
  | unaryOp op m _ ihm =>
      obtain ⟨zm, pm, hm⟩ := ihm
      by_cases hop : op.type = TokenType.TT_SUBTRACT
      · refine ⟨-zm, some op.position, ?_⟩
        simp [visit, hm, hop, NumberValue.multipliedBy, NumberValue.make,
          NumberValue.setPosition, JSNum.mul]
      · refine ⟨zm, some op.position, ?_⟩
        simp [visit, hm, hop, NumberValue.setPosition]

/-! Claim theorems. -/

/-- C1: `*` and `/` bind tighter than `+` and `-`, and parentheses override
the default grouping: `a + b * c` parses with the product as the right child
of the sum and evaluates to `a + b * c`, `(a + b) * c` parses with the sum
as the left child of the product, and `run("2+3*4")` yields 14 while
`run("(2+3)*4")` yields 20. -/
theorem c1_precedence :
    (∀ a b c : ℚ,
      parseTokens [mkInt a, mkTok .TT_ADD, mkInt b, mkTok .TT_MULTIPLY, mkInt c,
          mkTok .TT_EOF] =
        .ok (.binaryOp (.number (mkInt a))
          (.binaryOp (.number (mkInt b)) (.number (mkInt c)) (mkTok .TT_MULTIPLY))
          (mkTok .TT_ADD)) ∧
      evalTokens [mkInt a, mkTok .TT_ADD, mkInt b, mkTok .TT_MULTIPLY, mkInt c,
          mkTok .TT_EOF] = .ok (.num (a + b * c))) ∧
    (∀ a b c : ℚ,
      parseTokens [mkTok .TT_LPAREN, mkInt a, mkTok .TT_ADD, mkInt b,
          mkTok .TT_RPAREN, mkTok .TT_MULTIPLY, mkInt c, mkTok .TT_EOF] =
        .ok (.binaryOp
          (.binaryOp (.number (mkInt a)) (.number (mkInt b)) (mkTok .TT_ADD))
          (.number (mkInt c)) (mkTok .TT_MULTIPLY)) ∧
      evalTokens [mkTok .TT_LPAREN, mkInt a, mkTok .TT_ADD, mkInt b,
          mkTok .TT_RPAREN, mkTok .TT_MULTIPLY, mkInt c, mkTok .TT_EOF] =
        .ok (.num ((a + b) * c))) ∧
    (∀ name : String, runValue "2+3*4" name = .ok (.num 14)) ∧
    (∀ name : String, runValue "(2+3)*4" name = .ok (.num 20)) := by
  refine ⟨fun a b c => ⟨rfl, rfl⟩, fun a b c => ⟨rfl, rfl⟩,
    fun name => ?_, fun name => ?_⟩
  · have h : runValue "2+3*4" name = .ok (.num (2 + 3 * 4)) := rfl
    rw [h]
    norm_num
  · have h : runValue "(2+3)*4" name = .ok (.num ((2 + 3) * 4)) := rfl
    rw [h]
    norm_num

/-- C2: chains of equal-precedence operators parse into strictly
left-associative trees, so evaluation groups left-to-right: for both the
additive and the multiplicative level, `a op1 b op2 c` parses as
`(a op1 b) op2 c`; in particular `a-b-c` evaluates to `(a-b)-c` and
`run("7-3-2")` equals `run("(7-3)-2")` = 2. -/
theorem c2_left_assoc :
    (∀ (a b c : ℚ) (op1 op2 : TokenType),
      op1 ∈ [TokenType.TT_ADD, TokenType.TT_SUBTRACT] →
      op2 ∈ [TokenType.TT_ADD, TokenType.TT_SUBTRACT] →
      parseTokens [mkInt a, mkTok op1, mkInt b, mkTok op2, mkInt c, mkTok .TT_EOF] =
        .ok (.binaryOp
          (.binaryOp (.number (mkInt a)) (.number (mkInt b)) (mkTok op1))
          (.number (mkInt c)) (mkTok op2))) ∧
    (∀ (a b c : ℚ) (op1 op2 : TokenType),
      op1 ∈ [TokenType.TT_MULTIPLY, TokenType.TT_DIVIDE] →
      op2 ∈ [TokenType.TT_MULTIPLY, TokenType.TT_DIVIDE] →
      parseTokens [mkInt a, mkTok op1, mkInt b, mkTok op2, mkInt c, mkTok .TT_EOF] =
        .ok (.binaryOp
          (.binaryOp (.number (mkInt a)) (.number (mkInt b)) (mkTok op1))
          (.number (mkInt c)) (mkTok op2))) ∧
    (∀ a b c : ℚ,
      evalTokens [mkInt a, mkTok .TT_SUBTRACT, mkInt b, mkTok .TT_SUBTRACT,
          mkInt c, mkTok .TT_EOF] = .ok (.num (a - b - c))) ∧
    (∀ name : String, runValue "7-3-2" name = .ok (.num 2)) ∧
    (∀ name : String, runValue "(7-3)-2" name = .ok (.num 2)) := by
  refine ⟨?_, ?_, fun a b c => rfl, fun name => ?_, fun name => ?_⟩
  · intro a b c op1 op2 h1 h2
    simp only [List.mem_cons, List.not_mem_nil, or_false] at h1 h2
    rcases h1 with rfl | rfl <;> rcases h2 with rfl | rfl <;> rfl
  · intro a b c op1 op2 h1 h2
    simp only [List.mem_cons, List.not_mem_nil, or_false] at h1 h2
    rcases h1 with rfl | rfl <;> rcases h2 with rfl | rfl <;> rfl
  · have h : runValue "7-3-2" name = .ok (.num (7 - 3 - 2)) := rfl
    rw [h]
    norm_num
  · have h : runValue "(7-3)-2" name = .ok (.num (7 - 3 - 2)) := rfl
    rw [h]
    norm_num

/-- C2 witness: the left-associative parse trees at concrete literals for
one additive and one multiplicative chain. -/
theorem c2_left_assoc_witness :
    parseTokens [mkInt 7, mkTok .TT_SUBTRACT, mkInt 3, mkTok .TT_SUBTRACT,
        mkInt 2, mkTok .TT_EOF] =
      .ok (.binaryOp
        (.binaryOp (.number (mkInt 7)) (.number (mkInt 3)) (mkTok .TT_SUBTRACT))
        (.number (mkInt 2)) (mkTok .TT_SUBTRACT)) ∧
    parseTokens [mkInt 8, mkTok .TT_DIVIDE, mkInt 4, mkTok .TT_MULTIPLY,
        mkInt 2, mkTok .TT_EOF] =
      .ok (.binaryOp
        (.binaryOp (.number (mkInt 8)) (.number (mkInt 4)) (mkTok .TT_DIVIDE))
        (.number (mkInt 2)) (mkTok .TT_MULTIPLY)) :=
  ⟨c2_left_assoc.1 7 3 2 _ _ (by simp) (by simp),
   c2_left_assoc.2.1 8 4 2 _ _ (by simp) (by simp)⟩

/-- C3: unary `-` multiplies by -1, unary `+` leaves the value unchanged,
and arbitrarily repeated signs are accepted: a chain of `k+1` minus signs
before a literal `n` evaluates to `(-1)^(k+1) * n`; hence `--5` = 5,
`---5` = -5, and `-(-5)` = 5. -/
theorem c3_unary_sign :
    (∀ (k : ℕ) (n : ℚ),
      evalTokens (List.replicate (k + 1) (mkTok .TT_SUBTRACT) ++
          [mkInt n, mkTok .TT_EOF]) = .ok (.num (n * (-1) ^ (k + 1)))) ∧
    (∀ n : ℚ, evalTokens [mkTok .TT_ADD, mkInt n, mkTok .TT_EOF] = .ok (.num n)) ∧
    (∀ n : ℚ,
      evalTokens [mkTok .TT_SUBTRACT, mkTok .TT_LPAREN, mkTok .TT_SUBTRACT,
          mkInt n, mkTok .TT_RPAREN, mkTok .TT_EOF] = .ok (.num n)) ∧
    (∀ name : String, runValue "--5" name = .ok (.num 5)) ∧
    (∀ name : String, runValue "---5" name = .ok (.num (-5))) ∧
    (∀ name : String, runValue "-(-5)" name = .ok (.num 5)) := by
  refine ⟨?_, fun n => rfl, fun n => ?_, fun name => ?_, fun name => ?_,
    fun name => ?_⟩
  · intro k n
    have hts : List.replicate (k + 1) (mkTok .TT_SUBTRACT) ++
        [mkInt n, mkTok .TT_EOF] =
        mkTok .TT_SUBTRACT ::
          (List.replicate k (mkTok .TT_SUBTRACT) ++ [mkInt n, mkTok .TT_EOF]) := by
      rw [List.replicate_succ, List.cons_append]
    rw [hts]
    unfold evalTokens parseTokens
    rw [parse_subChain]
    dsimp only
    rw [visit_negChain]
  · have h : evalTokens [mkTok .TT_SUBTRACT, mkTok .TT_LPAREN, mkTok .TT_SUBTRACT,
        mkInt n, mkTok .TT_RPAREN, mkTok .TT_EOF] = .ok (.num (n * -1 * -1)) := rfl
    rw [h]
    norm_num
  · have h : runValue "--5" name = .ok (.num (5 * -1 * -1)) := rfl
    rw [h]
    norm_num
  · have h : runValue "---5" name = .ok (.num (5 * -1 * -1 * -1)) := rfl
    rw [h]
    norm_num
  · have h : runValue "-(-5)" name = .ok (.num (5 * -1 * -1)) := rfl
    rw [h]
    norm_num

/-- C4: division-free integer-literal expressions evaluate to integers
(`TT_INT` tokens always carry natural-number values), while `/` produces
exact fractional results even on integer operands: `run("5/2")` = 2.5 and
`run("10/4")` = 2.5. -/
theorem c4_numeric_results :
    (∀ n : Node, IntComposed n →
      ∃ (z : ℤ) (p : Option Position), visit n = some ⟨.num (z : ℚ), p⟩) ∧
    (∀ (fn input : String) (out : LexOutput), makeTokens fn input = .ok out →
      ∀ t ∈ out.tokens, t.type = TokenType.TT_INT →
        ∃ m : ℕ, t.value = some (m : ℚ)) ∧
    (∀ name : String, runValue "5/2" name = .ok (.num 2.5)) ∧
    (∀ name : String, runValue "10/4" name = .ok (.num 2.5)) := by
  refine ⟨visit_int, fun fn input out h => makeTokens_int_values fn input out h,
    fun name => ?_, fun name => ?_⟩
  · have h : runValue "5/2" name = .ok (.num (5 / 2)) := rfl
    rw [h]
    norm_num
  · have h : runValue "10/4" name = .ok (.num (10 / 4)) := rfl
    rw [h]
    norm_num

/-- C4 witness: a concrete division-free integer tree evaluates to an
integer, and the concrete `TT_INT` token of `makeTokens "s" "1+2"` carries a
natural value. -/
theorem c4_numeric_results_witness :
    (∃ (z : ℤ) (p : Option Position),
      visit (.binaryOp (.number (mkInt 3)) (.number (mkInt 4))
        (mkTok .TT_MULTIPLY)) = some ⟨.num (z : ℚ), p⟩) ∧
    (∃ m : ℕ, (⟨.TT_INT, some 1, ⟨3, 0, 3⟩⟩ : Token).value = some (m : ℚ)) :=
  ⟨c4_numeric_results.1 _
      (IntComposed.binaryOp _ _ _
        (IntComposed.number _ ⟨rfl, 3, by norm_num [mkInt]⟩)
        (IntComposed.number _ ⟨rfl, 4, by norm_num [mkInt]⟩)
        (Or.inr (Or.inr rfl))),
   c4_numeric_results.2.1 "s" "1+2"
      ⟨[⟨.TT_INT, some 1, ⟨3, 0, 3⟩⟩, ⟨.TT_ADD, none, ⟨3, 0, 3⟩⟩,
        ⟨.TT_INT, some 2, ⟨3, 0, 3⟩⟩, ⟨.TT_EOF, none, ⟨3, 0, 3⟩⟩],
       [⟨1, 0, 1⟩, ⟨1, 0, 1⟩, ⟨3, 0, 3⟩, ⟨3, 0, 3⟩], ⟨3, 0, 3⟩⟩
      rfl ⟨.TT_INT, some 1, ⟨3, 0, 3⟩⟩ (by simp) rfl⟩

/-- C5: arithmetic never raises an error — whenever lexing and parsing
succeed, `run` returns a value — and division by the literal zero follows
IEEE-754: positive dividends give `+∞`, negative give `-∞`, and `0/0` gives
`NaN`; concretely `run("5/0")` = `+∞` and `run("0/0")` = `NaN`. -/
theorem c5_div_by_zero_safe :
    (∀ (input name : String) (out : LexOutput) (node : Node),
      makeTokens name input = .ok out → parse name out.tokens = .ok node →
      ∃ v, run input name = .ok v) ∧
    (∀ q : ℚ, 0 < q → JSNum.div (.num q) (.num 0) = .posInf) ∧
    (∀ q : ℚ, q < 0 → JSNum.div (.num q) (.num 0) = .negInf) ∧
    JSNum.div (.num 0) (.num 0) = .nan ∧
    (∀ name : String, runValue "5/0" name = .ok .posInf) ∧
    (∀ name : String, runValue "0/0" name = .ok .nan) := by
  refine ⟨fun input name out node h1 h2 => run_ok_of_lex_parse input name out node h1 h2,
    fun q hq => ?_, fun q hq => ?_, rfl, fun name => rfl, fun name => rfl⟩
  · simp [JSNum.div, hq]
  · simp [JSNum.div, lt_asymm hq, hq]

/-- C5 witness: `run "5/0"` returns a value (through the
lexes-and-parses hypotheses at their concrete outputs), and the
division-by-zero facts at dividends 5 and -3. -/
theorem c5_div_by_zero_safe_witness :
    (∃ v, run "5/0" "s" = .ok v) ∧
    JSNum.div (.num 5) (.num 0) = .posInf ∧
    JSNum.div (.num (-3)) (.num 0) = .negInf :=
  ⟨c5_div_by_zero_safe.1 "5/0" "s"
      ⟨[⟨.TT_INT, some 5, ⟨3, 0, 3⟩⟩, ⟨.TT_DIVIDE, none, ⟨3, 0, 3⟩⟩,
        ⟨.TT_INT, some 0, ⟨3, 0, 3⟩⟩, ⟨.TT_EOF, none, ⟨3, 0, 3⟩⟩],
       [⟨1, 0, 1⟩, ⟨1, 0, 1⟩, ⟨3, 0, 3⟩, ⟨3, 0, 3⟩], ⟨3, 0, 3⟩⟩
      (.binaryOp (.number ⟨.TT_INT, some 5, ⟨3, 0, 3⟩⟩)
        (.number ⟨.TT_INT, some 0, ⟨3, 0, 3⟩⟩) ⟨.TT_DIVIDE, none, ⟨3, 0, 3⟩⟩)
      rfl rfl,
   c5_div_by_zero_safe.2.1 5 (by norm_num),
   c5_div_by_zero_safe.2.2.1 (-3) (by norm_num)⟩

/-- C6: the claim fails on the program.  The throw sites do compute the
offending character (or expectation), the source name and the current line,
and pass all three to the error constructors — but the standard JS `Error`
base (as in Node, this program's host) stores only the message, so every
thrown error carries just its message: the constructed error is independent
of the file name and line passed to it, `run "2 & 3"` yields the same
message-only illegal-character error — naming exactly `&` — for every
source name, and a grammar violation likewise yields only the wrapped
expectation message. -/
theorem c6_error_message_only :
    (∀ (c : Char) (fn : String) (fuel : Nat) (cs : List Char) (pos : Position)
        (acc : List (Token × Position)),
      ¬(c = ' ' ∨ c = '\t') → isDigitChar c = false → c ≠ '+' → c ≠ '-' →
      c ≠ '*' → c ≠ '/' → c ≠ '(' → c ≠ ')' →
      makeTokensLoop fn (fuel + 1) (c :: cs) pos acc =
        .error (IllegalCharError.make c fn pos.lineNumber)) ∧
    (∀ (c : Char) (fn fn' : String) (ln ln' : Nat),
      IllegalCharError.make c fn ln = IllegalCharError.make c fn' ln') ∧
    (∀ (expectation fn fn' : String) (ln ln' : Nat),
      InvalidSyntaxError.make expectation fn ln =
        InvalidSyntaxError.make expectation fn' ln') ∧
    (∀ (c : Char) (fn : String) (ln : Nat),
      (IllegalCharError.make c fn ln).message =
        "'" ++ String.singleton c ++ "' is an illegal character") ∧
    (∀ name : String,
      run "2 & 3" name = .error (.lexError ⟨"'&' is an illegal character"⟩)) ∧
    (∀ name name' : String, run "2 & 3" name = run "2 & 3" name') ∧
    (∀ name : String,
      run "1+" name =
        .error (.parseError ⟨"'Expected int or float' invalid syntax"⟩)) := by
  refine ⟨?_, fun _ _ _ _ _ => rfl, fun _ _ _ _ _ => rfl, fun _ _ _ => rfl,
    fun _ => rfl, fun _ _ => rfl, fun _ => rfl⟩
  intro c fn fuel cs pos acc h1 h2 h3 h4 h5 h6 h7 h8
  simp only [makeTokensLoop]
  rw [if_neg h1]
  simp [h2, h3, h4, h5, h6, h7, h8]

/-- C6 witness: the unrecognized-character conjunct applied at `&`. -/
theorem c6_error_message_only_witness :
    makeTokensLoop "stdin" (0 + 1) ['&'] ⟨0, 0, 0⟩ [] =
      .error (IllegalCharError.make '&' "stdin" 0) :=
  c6_error_message_only.1 '&' "stdin" 0 [] ⟨0, 0, 0⟩ []
    (by decide) (by decide) (by decide) (by decide) (by decide) (by decide)
    (by decide) (by decide)

/-- C7: the claim's immutable-snapshot property fails — all tokens hold a
reference to the lexer's single `Position` object, which `advance` mutates:
for input `"1+2"` the first token is created while the shared cell reads
index 1, yet after lexing its `position` (like every token's) reads the
final cell value, index 3; in particular the two integer tokens, created at
input offsets 0 and 2, expose identical recorded positions. -/
theorem c7_token_positions_mutated :
    makeTokens "s" "1+2" =
      .ok ⟨[⟨.TT_INT, some 1, ⟨3, 0, 3⟩⟩, ⟨.TT_ADD, none, ⟨3, 0, 3⟩⟩,
            ⟨.TT_INT, some 2, ⟨3, 0, 3⟩⟩, ⟨.TT_EOF, none, ⟨3, 0, 3⟩⟩],
           [⟨1, 0, 1⟩, ⟨1, 0, 1⟩, ⟨3, 0, 3⟩, ⟨3, 0, 3⟩], ⟨3, 0, 3⟩⟩ ∧
    (⟨1, 0, 1⟩ : Position) ≠ ⟨3, 0, 3⟩ :=
  ⟨rfl, by decide⟩

/-- C8: number scanning consumes a prefix with at most one `.` — a second
`.` stops the scan unconsumed, leaving the remainder to be re-lexed — and
the token is `TT_FLOAT` exactly when a dot was consumed, with the value
parsed from the consumed lexeme: `"3.14"` lexes to a Float token of value
3.14, `"42"` to an Int token of value 42, and in `"1.2.3"` the scan stops
at the second dot (the leftover `"."` then fails re-lexing as an illegal
character). -/
theorem c8_number_scanning :
    (∀ (cs : List Char) (pos : Position),
      (makeNumberLoop cs pos [] false).1 ++
        (makeNumberLoop cs pos [] false).2.2.1 = cs) ∧
    (∀ (cs : List Char) (pos : Position),
      ((makeNumberLoop cs pos [] false).1).count '.' ≤ 1) ∧
    (∀ (cs : List Char) (pos : Position),
      (makeNumberLoop cs pos [] false).2.1 =
        ((makeNumberLoop cs pos [] false).1).contains '.') ∧
    makeNumberLoop "1.2.3".data pos0 [] false =
      ("1.2".data, true, ".3".data, ⟨3, 0, 3⟩) ∧
    (∀ name : String,
      (makeTokens name "3.14").map (fun o => o.tokens.map fun t => (t.type, t.value)) =
        .ok [(.TT_FLOAT, some (3.14 : ℚ)), (.TT_EOF, none)]) ∧
    (∀ name : String,
      (makeTokens name "42").map (fun o => o.tokens.map fun t => (t.type, t.value)) =
        .ok [(.TT_INT, some (42 : ℚ)), (.TT_EOF, none)]) ∧
    (∀ name : String,
      makeTokens name "1.2.3" =
        .error (.lexError ⟨"'.' is an illegal character"⟩)) := by
  refine ⟨?_, ?_, ?_, rfl, fun name => ?_, fun name => ?_, fun name => rfl⟩
  · intro cs pos
    obtain ⟨con, h1, h2, _, _⟩ := makeNumberLoop_spec cs pos [] false
    simp only [List.nil_append] at h1
    rw [h1]
    exact h2
  · intro cs pos
    obtain ⟨con, h1, _, h3, _⟩ := makeNumberLoop_spec cs pos [] false
    simp only [List.nil_append] at h1
    rw [h1]
    simpa using h3
  · intro cs pos
    obtain ⟨con, h1, _, _, h4⟩ := makeNumberLoop_spec cs pos [] false
    simp only [List.nil_append] at h1
    rw [h1]
    simpa using h4
  · have h : (makeTokens name "3.14").map
        (fun o => o.tokens.map fun t => (t.type, t.value)) =
        .ok [(.TT_FLOAT, some ((natFromDigits ['3'] : ℚ) +
          (natFromDigits ['1', '4'] : ℚ) / 10 ^ 2)), (.TT_EOF, none)] := rfl
    rw [h]
    norm_num [show (natFromDigits ['3'] : ℕ) = 3 from rfl,
      show (natFromDigits ['1', '4'] : ℕ) = 14 from rfl]
  · rfl

/-- C9: the message part holds but the reported-line part fails on the
program.  The parser does pass the opening parenthesis token's line number
to the `InvalidSyntaxError` constructor, but the JS `Error` base stores only
the message, so the thrown error reports no line number: for `(a+b`
token-level and for `"(2+3"` and `"((1+2)"` end-to-end (outer paren
unmatched) the error value is exactly the message-only
`'Expected ')'' invalid syntax`, identical for every source name. -/
theorem c9_missing_rparen :
    (∀ (a b : ℚ) (name : String),
      parse name [mkTok .TT_LPAREN, mkInt a, mkTok .TT_ADD, mkInt b,
          mkTok .TT_EOF] =
        .error (.parseError ⟨"'Expected ')'' invalid syntax"⟩)) ∧
    (∀ name : String,
      run "(2+3" name =
        .error (.parseError ⟨"'Expected ')'' invalid syntax"⟩)) ∧
    (∀ name name' : String, run "(2+3" name = run "(2+3" name') ∧
    (∀ name : String,
      run "((1+2)" name =
        .error (.parseError ⟨"'Expected ')'' invalid syntax"⟩)) :=
  ⟨fun _ _ _ => rfl, fun _ => rfl, fun _ _ => rfl, fun _ => rfl⟩

/-- C10: on the empty input and on inputs of only spaces and tabs the lexer
returns just the `TT_EOF` sentinel, and `run` fails with the
`Expected int or float` syntax error (line 0) instead of returning a
value. -/
theorem c10_blank_input (input name : String)
    (hws : ∀ c ∈ input.data, c = ' ' ∨ c = '\t') :
    (∃ p : Position, p.lineNumber = 0 ∧
      makeTokens name input = .ok ⟨[⟨.TT_EOF, none, p⟩], [p], p⟩) ∧
    run input name =
      .error (.parseError ⟨"'Expected int or float' invalid syntax"⟩) := by
  have hline : (input.data.foldl Position.advance ⟨0, 0, 0⟩).lineNumber = 0 :=
    foldl_advance_ws_line _ _ hws
  have hloop : makeTokensLoop name (input.length + 1) input.data ⟨0, 0, 0⟩ [] =
      .ok (some ([], input.data.foldl Position.advance ⟨0, 0, 0⟩)) :=
    makeTokensLoop_ws _ _ _ _ _ (Nat.lt_succ_self _) hws
  have hmk : makeTokens name input =
      .ok ⟨[⟨.TT_EOF, none, input.data.foldl Position.advance ⟨0, 0, 0⟩⟩],
           [input.data.foldl Position.advance ⟨0, 0, 0⟩],
           input.data.foldl Position.advance ⟨0, 0, 0⟩⟩ := by
    unfold makeTokens
    rw [hloop]
    rfl
  refine ⟨⟨_, hline, hmk⟩, ?_⟩
  unfold run
  rw [hmk]
  dsimp only
  have hparse : parse name
      [⟨.TT_EOF, none, input.data.foldl Position.advance ⟨0, 0, 0⟩⟩] =
      .error (.parseError ⟨"'Expected int or float' invalid syntax"⟩) := rfl
  rw [hparse]

/-- C10 witness: the empty input and a spaces-and-tabs input. -/
theorem c10_blank_input_witness :
    run "" "s" =
      .error (.parseError ⟨"'Expected int or float' invalid syntax"⟩) ∧
    (∃ p : Position, p.lineNumber = 0 ∧
      makeTokens "s" " \t " = .ok ⟨[⟨.TT_EOF, none, p⟩], [p], p⟩) :=
  ⟨(c10_blank_input "" "s" (by decide)).2,
   (c10_blank_input " \t " "s" (by decide)).1⟩

end Basic
